import Mathlib

/-
Verification of the simulation core of a 2D action game
(pythongame/core/game_state.py and pythongame/core/game_engine.py).

The Python classes are embedded shallowly:
  * machine floats become exact rationals (ℚ), Python ints become ℤ or ℕ;
  * `int(math.floor(x))` becomes `Int.floor`;
  * mutation becomes explicit state passing;
  * a raised exception becomes `Option`/`Except` with the error case;
  * object identity (Python `is`) is modelled by a numeric id field,
    theorems that need it carry a `Nodup`-of-ids hypothesis.
Observer notifications (`Observable.notify`) carry no state that the claims
mention, so they are dropped from the embedding.
-/

namespace PyGame

/-! ## HealthOrManaResource (game_state.py lines 142-211)

The gauge stores a floating accumulator `_value_float`, an integer snapshot
`value` and an integer `max_value`.  The float is modelled as ℚ. -/

structure HealthOrManaResource where
  valueFloat : ℚ
  value : ℤ
  maxValue : ℤ
  baseRegen : ℚ
  regenBonus : ℚ
deriving DecidableEq

/-- Source `HealthOrManaResource.__init__(max_value, regen)`. -/
def HealthOrManaResource.init (maxValue : ℤ) (regen : ℚ) : HealthOrManaResource :=
  { valueFloat := maxValue
    value := maxValue
    maxValue := maxValue
    baseRegen := regen
    regenBonus := 0 }

/-- Source `gain(amount)`: clamp the accumulator to `max_value` from above, floor it
into the snapshot, return the new state together with `amount_gained`. -/
def HealthOrManaResource.gain (g : HealthOrManaResource) (amount : ℚ) :
    HealthOrManaResource × ℤ :=
  let vf := min (g.valueFloat + amount) (g.maxValue : ℚ)
  let v := ⌊vf⌋
  ({ g with valueFloat := vf, value := v }, v - g.value)

/-- Source `lose(amount)`: the accumulator is clamped to `max_value` from above but
NOT at zero; returns the new state together with `amount_lost`. -/
def HealthOrManaResource.lose (g : HealthOrManaResource) (amount : ℚ) :
    HealthOrManaResource × ℤ :=
  let vf := min (g.valueFloat - amount) (g.maxValue : ℚ)
  let v := ⌊vf⌋
  ({ g with valueFloat := vf, value := v }, g.value - v)

/-- Source `gain_to_max()`: sets both the accumulator and the snapshot to
`max_value`, returning the amount gained. -/
def HealthOrManaResource.gainToMax (g : HealthOrManaResource) :
    HealthOrManaResource × ℤ :=
  ({ g with valueFloat := (g.maxValue : ℚ), value := g.maxValue }, g.maxValue - g.value)

/-- Source `increase_max(amount)`: only the maximum changes. -/
def HealthOrManaResource.increaseMax (g : HealthOrManaResource) (amount : ℤ) :
    HealthOrManaResource :=
  { g with maxValue := g.maxValue + amount }

/-- Source `decrease_max(amount)`: the maximum shrinks and the current value is
clamped down only when the snapshot now exceeds the new maximum. -/
def HealthOrManaResource.decreaseMax (g : HealthOrManaResource) (amount : ℤ) :
    HealthOrManaResource :=
  let m := g.maxValue - amount
  if g.value > m then
    { g with maxValue := m, valueFloat := (m : ℚ), value := ⌊(m : ℚ)⌋ }
  else
    { g with maxValue := m }

/-- One call of the sequence considered by the gauge invariant: `gain` and
`lose` take arbitrary (rational) amounts, `increase_max`/`decrease_max` take
the nonnegative integer amounts with which the source invokes them
(`PlayerState.modify_stat` splits on the sign of the delta). -/
inductive ResourceOp where
  | gain (amount : ℚ)
  | lose (amount : ℚ)
  | increaseMax (amount : ℕ)
  | decreaseMax (amount : ℕ)

def applyResourceOp (g : HealthOrManaResource) : ResourceOp → HealthOrManaResource
  | .gain a => (g.gain a).1
  | .lose a => (g.lose a).1
  | .increaseMax a => g.increaseMax a
  | .decreaseMax a => g.decreaseMax a

def applyResourceOps (g : HealthOrManaResource) (ops : List ResourceOp) :
    HealthOrManaResource :=
  ops.foldl applyResourceOp g

/-- The data invariant the gauge actually maintains: the snapshot is the floor
of the accumulator, and the accumulator stays below `max_value + 1` (not
necessarily `≤ max_value`: `decrease_max` can leave a fractional excess). -/
def ResourceWF (g : HealthOrManaResource) : Prop :=
  g.value = ⌊g.valueFloat⌋ ∧ g.valueFloat < g.maxValue + 1

lemma resourceWF_init (m : ℤ) (r : ℚ) : ResourceWF (HealthOrManaResource.init m r) := by
  constructor
  · simp [HealthOrManaResource.init]
  · simp only [HealthOrManaResource.init]
    linarith

lemma resourceWF_applyOp (g : HealthOrManaResource) (op : ResourceOp)
    (h : ResourceWF g) : ResourceWF (applyResourceOp g op) := by
  obtain ⟨hv, hub⟩ := h
  cases op with
  | gain a =>
      refine ⟨rfl, ?_⟩
      simp only [applyResourceOp, HealthOrManaResource.gain]
      have : min (g.valueFloat + a) (g.maxValue : ℚ) ≤ (g.maxValue : ℚ) := min_le_right _ _
      linarith
  | lose a =>
      refine ⟨rfl, ?_⟩
      simp only [applyResourceOp, HealthOrManaResource.lose]
      have : min (g.valueFloat - a) (g.maxValue : ℚ) ≤ (g.maxValue : ℚ) := min_le_right _ _
      linarith
  | increaseMax a =>
      refine ⟨hv, ?_⟩
      simp only [applyResourceOp, HealthOrManaResource.increaseMax]
      have : (0 : ℚ) ≤ (a : ℚ) := by positivity
      push_cast
      linarith
  | decreaseMax a =>
      simp only [applyResourceOp, HealthOrManaResource.decreaseMax]
      by_cases hc : g.value > g.maxValue - (a : ℤ)
      · rw [if_pos hc]
        refine ⟨rfl, ?_⟩
        simp only
        push_cast
        linarith
      · rw [if_neg hc]
        refine ⟨hv, ?_⟩
        simp only
        push_neg at hc
        have hfl : g.valueFloat < g.value + 1 := by
          have := Int.lt_floor_add_one g.valueFloat
          rw [← hv] at this
          exact_mod_cast this
        have : (g.value : ℚ) ≤ ((g.maxValue - (a : ℤ) : ℤ) : ℚ) := by exact_mod_cast hc
        push_cast at this ⊢
        linarith

lemma resourceWF_applyOps (g : HealthOrManaResource) (ops : List ResourceOp)
    (h : ResourceWF g) : ResourceWF (applyResourceOps g ops) := by
  induction ops generalizing g with
  | nil => exact h
  | cons op rest ih => exact ih _ (resourceWF_applyOp g op h)

lemma resourceWF_value_le_max (g : HealthOrManaResource) (h : ResourceWF g) :
    g.value ≤ g.maxValue := by
  obtain ⟨hv, hub⟩ := h
  have h1 : (g.value : ℚ) ≤ g.valueFloat := by
    rw [hv]; exact Int.floor_le _
  have h2 : (g.value : ℚ) < (g.maxValue : ℚ) + 1 := lt_of_le_of_lt h1 hub
  have : g.value < g.maxValue + 1 := by exact_mod_cast h2
  omega

/-- C1 (corrected): after any sequence of gain/lose/increase_max/decrease_max
calls on a fresh gauge, the integer snapshot satisfies `value ≤ max`.  The
lower bound `0 ≤ value` of the original claim is false: `lose` does not clamp
the accumulator at zero (see `lose_can_push_value_below_zero`). -/
theorem resource_value_le_max (m : ℤ) (r : ℚ) (ops : List ResourceOp) :
    (applyResourceOps (HealthOrManaResource.init m r) ops).value ≤
      (applyResourceOps (HealthOrManaResource.init m r) ops).maxValue :=
  resourceWF_value_le_max _ (resourceWF_applyOps _ _ (resourceWF_init m r))

/-- C1 counterexample: a full gauge with max 10 that takes a single
`lose(15)` call ends with snapshot value -5, violating `0 ≤ value`. -/
theorem lose_can_push_value_below_zero :
    ¬ (0 ≤ ((HealthOrManaResource.init 10 0).lose 15).1.value) := by
  have h : ((HealthOrManaResource.init 10 0).lose 15).1.value = -5 := by
    norm_num [HealthOrManaResource.init, HealthOrManaResource.lose]
  rw [h]
  norm_num

/-- C7 (confirmed): on a well-formed gauge, `lose(amount)` followed by
`gain(amount)` with `0 ≤ amount ≤ max - value` (the headroom bound stated by
the spec) returns the integer snapshot to exactly its prior value. -/
theorem lose_then_gain_restores_value (g : HealthOrManaResource) (a : ℚ)
    (hwf : ResourceWF g) (ha : 0 ≤ a) (hheadroom : a ≤ ((g.maxValue - g.value : ℤ) : ℚ)) :
    (((g.lose a).1.gain a).1).value = g.value := by
  obtain ⟨hv, hub⟩ := hwf
  simp only [HealthOrManaResource.lose, HealthOrManaResource.gain]
  by_cases hcl : g.valueFloat - a ≤ (g.maxValue : ℚ)
  · rw [min_eq_left hcl]
    have harr : g.valueFloat - a + a = g.valueFloat := by ring
    rw [harr]
    by_cases hvf : g.valueFloat ≤ (g.maxValue : ℚ)
    · rw [min_eq_left hvf, ← hv]
    · push_neg at hvf
      rw [min_eq_right (le_of_lt hvf), Int.floor_intCast, hv]
      symm
      rw [Int.floor_eq_iff]
      exact ⟨le_of_lt hvf, hub⟩
  · push_neg at hcl
    have h1 : min (g.valueFloat - a) (g.maxValue : ℚ) = (g.maxValue : ℚ) :=
      min_eq_right (le_of_lt hcl)
    rw [h1]
    have h2 : min ((g.maxValue : ℚ) + a) (g.maxValue : ℚ) = (g.maxValue : ℚ) :=
      min_eq_right (by linarith)
    rw [h2, Int.floor_intCast, hv]
    symm
    have hge : (g.maxValue : ℚ) ≤ g.valueFloat := by linarith
    rw [Int.floor_eq_iff]
    exact ⟨hge, hub⟩

/-- C7 witness: a gauge with max 10 that has lost 4 health (value 6) loses 3
and regains 3, ending back at value 6. -/
theorem lose_then_gain_restores_value_witness :
    (((((HealthOrManaResource.init 10 0).lose 4).1.lose 3).1.gain 3).1).value =
      (((HealthOrManaResource.init 10 0).lose 4).1).value := by
  refine lose_then_gain_restores_value _ 3 ⟨?_, ?_⟩ (by norm_num) ?_
  · norm_num [HealthOrManaResource.init, HealthOrManaResource.lose]
  · norm_num [HealthOrManaResource.init, HealthOrManaResource.lose]
  · norm_num [HealthOrManaResource.init, HealthOrManaResource.lose]

/-! ## StunStatus (game_state.py lines 214-227)

A counter of active stun sources.  `remove_one` decrements and then raises if
the counter went negative; the raise is modelled as `Except.error`. -/

structure StunStatus where
  numberOfActiveStuns : ℤ
deriving DecidableEq

def StunStatus.init : StunStatus := ⟨0⟩

def StunStatus.addOne (s : StunStatus) : StunStatus :=
  ⟨s.numberOfActiveStuns + 1⟩

def StunStatus.removeOne (s : StunStatus) : Except String StunStatus :=
  let n := s.numberOfActiveStuns - 1
  if n < 0 then
    .error "Number of active stuns went below 0"
  else
    .ok ⟨n⟩

def StunStatus.isStunned (s : StunStatus) : Bool :=
  s.numberOfActiveStuns > 0

/-- N consecutive `add_one` calls. -/
def addStunN (s : StunStatus) : ℕ → StunStatus
  | 0 => s
  | n + 1 => addStunN s.addOne n

/-- N consecutive `remove_one` calls; the first raise aborts the sequence. -/
def removeStunN (s : StunStatus) : ℕ → Except String StunStatus
  | 0 => .ok s
  | n + 1 =>
    match s.removeOne with
    | .ok s1 => removeStunN s1 n
    | .error e => .error e

lemma addStunN_count (k : ℤ) (n : ℕ) : addStunN ⟨k⟩ n = ⟨k + n⟩ := by
  induction n generalizing k with
  | zero => simp [addStunN]
  | succ n ih =>
      simp only [addStunN, StunStatus.addOne]
      rw [ih]
      have : k + 1 + (n : ℤ) = k + ((n : ℕ) + 1 : ℕ) := by push_cast; ring
      rw [this]

lemma removeStunN_ok (k : ℤ) (n : ℕ) (h : (n : ℤ) ≤ k) :
    removeStunN ⟨k⟩ n = .ok ⟨k - n⟩ := by
  induction n generalizing k with
  | zero => simp [removeStunN]
  | succ n ih =>
      have hpos : (n : ℤ) + 1 ≤ k := by push_cast at h; omega
      have hk : ¬ (k - 1 < 0) := by omega
      simp only [removeStunN, StunStatus.removeOne, hk, if_false]
      rw [ih (k - 1) (by omega)]
      have : k - 1 - (n : ℤ) = k - ((n : ℕ) + 1 : ℕ) := by push_cast; ring
      rw [this]

lemma removeStunN_overflow (N : ℕ) :
    removeStunN ⟨(N : ℤ)⟩ (N + 1) = .error "Number of active stuns went below 0" := by
  induction N with
  | zero =>
      simp [removeStunN, StunStatus.removeOne]
  | succ N ih =>
      have h1 : StunStatus.removeOne ⟨((N + 1 : ℕ) : ℤ)⟩ = .ok ⟨(N : ℤ)⟩ := by
        simp only [StunStatus.removeOne]
        rw [if_neg (by push_cast; omega)]
        have : ((N + 1 : ℕ) : ℤ) - 1 = (N : ℤ) := by push_cast; ring
        rw [this]
      simp only [removeStunN, h1]
      exact ih

/-- C9 (confirmed): N `add_one` calls followed by N `remove_one` calls leave
the stun counter at 0 with `is_stunned() = false`, and an (N+1)-th
`remove_one` raises ("Number of active stuns went below 0"). -/
theorem stun_add_remove_roundtrip (N : ℕ) :
    (∃ s, removeStunN (addStunN StunStatus.init N) N = .ok s ∧ s.isStunned = false) ∧
    ∃ msg, removeStunN (addStunN StunStatus.init N) (N + 1) = .error msg := by
  have hadd : addStunN StunStatus.init N = ⟨(N : ℤ)⟩ := by
    rw [StunStatus.init, addStunN_count]
    norm_num
  constructor
  · refine ⟨⟨0⟩, ?_, by simp [StunStatus.isStunned]⟩
    rw [hadd, removeStunN_ok (N : ℤ) N (by omega)]
    norm_num
  · rw [hadd]
    exact ⟨_, removeStunN_overflow N⟩

/-! ## BuffWithDuration and the buff lifecycle engine

`BuffWithDuration` (game_state.py lines 267-295) wraps a pluggable buff
effect; of the effect only `get_buff_type()` is relevant to the claims, so it
is modelled by a numeric `buffType`.  `bid` models Python object identity.
`Millis` is ℤ.  A `None` duration is `Option.none`; `notify_time_passed` on a
`None` timer is Python `None - int`, a `TypeError`, modelled as `Option.none`
results. -/

structure BuffWithDuration where
  bid : ℕ
  buffType : ℕ
  timeUntilExpiration : Option ℤ
  hasBeenForceCancelled : Bool
  totalDuration : Option ℤ
  hasAppliedStartEffect : Bool
deriving DecidableEq

/-- Source `BuffWithDuration.__init__(buff_effect, duration)`. -/
def mkBuff (bid buffType : ℕ) (duration : Option ℤ) : BuffWithDuration :=
  { bid := bid
    buffType := buffType
    timeUntilExpiration := duration
    hasBeenForceCancelled := false
    totalDuration := duration
    hasAppliedStartEffect := false }

/-- Source `notify_time_passed(time)`: `self._time_until_expiration -= time`; a
`None` timer raises `TypeError` (`none` result). -/
def BuffWithDuration.notifyTimePassed (b : BuffWithDuration) (time : ℤ) :
    Option BuffWithDuration :=
  b.timeUntilExpiration.map fun r => { b with timeUntilExpiration := some (r - time) }

/-- Source `has_expired()`: `self._time_until_expiration <= 0`; `None` raises. -/
def BuffWithDuration.hasExpired (b : BuffWithDuration) : Option Bool :=
  b.timeUntilExpiration.map fun r => decide (r ≤ 0)

/-- Source `set_remaining_duration(time)`: only the remaining time changes. -/
def BuffWithDuration.setRemainingDuration (b : BuffWithDuration) (time : ℤ) :
    BuffWithDuration :=
  { b with timeUntilExpiration := some time }

/-- Python aliasing: mutating the object named `b` updates every list slot
that holds it.  With ids unique in `l` this is exactly replacing the slots
whose id is `b.bid`. -/
def updateByBid (l : List BuffWithDuration) (b : BuffWithDuration) :
    List BuffWithDuration :=
  l.map fun x => if x.bid = b.bid then b else x

/-- Source `list.remove(obj)`: drop the first slot holding the object. -/
def removeByBid (l : List BuffWithDuration) (bid : ℕ) : List BuffWithDuration :=
  l.eraseP fun x => x.bid = bid

/-- Return value of `handle_buffs` (game_engine.py lines 276-282). -/
structure AgentBuffsUpdate where
  buffsThatStarted : List BuffWithDuration
  buffsThatWereActive : List BuffWithDuration
  buffsThatEnded : List BuffWithDuration
deriving DecidableEq

/-- The loop body of `handle_buffs` (game_engine.py lines 284-299;
`PlayerState.handle_buffs`, game_state.py lines 491-508, is the identical
algorithm).  `snap` is the snapshot `copied_buffs_list`, `act` the live
`active_buffs` list, and `st`/`acv`/`en` the three accumulated lists.  The
classification appends the buff in the state it has at the end of its own
iteration, which is the state the Python references expose, since no later
iteration mutates it. -/
def handleBuffsLoop (t : ℤ) :
    List BuffWithDuration → List BuffWithDuration → List BuffWithDuration →
    List BuffWithDuration → List BuffWithDuration →
    Option (List BuffWithDuration × AgentBuffsUpdate)
  | [], act, st, acv, en => some (act, ⟨st, acv, en⟩)
  | b :: rest, act, st, acv, en =>
    match b.notifyTimePassed t with
    | none => none
    | some b1 =>
      if b1.hasAppliedStartEffect = false then
        let b2 := { b1 with hasAppliedStartEffect := true }
        let acv1 := if b2.hasBeenForceCancelled then acv else acv ++ [b2]
        handleBuffsLoop t rest (updateByBid act b2) (st ++ [b2]) acv1 en
      else
        let acv1 := if b1.hasBeenForceCancelled then acv else acv ++ [b1]
        if b1.hasExpired = some true then
          handleBuffsLoop t rest (removeByBid (updateByBid act b1) b1.bid) st acv1
            (en ++ [b1])
        else
          handleBuffsLoop t rest (updateByBid act b1) st acv1 en

/-- Source `handle_buffs(active_buffs, time_passed)`: returns the final
`active_buffs` list and the three classification lists, or `none` when the
loop raised (`TypeError` on a `None` timer). -/
def handleBuffs (activeBuffs : List BuffWithDuration) (t : ℤ) :
    Option (List BuffWithDuration × AgentBuffsUpdate) :=
  handleBuffsLoop t activeBuffs activeBuffs [] [] []

/-- Source `gain_buff_effect(buff, duration)` (game_state.py lines 471-478 for the
player, lines 251-257 for NPCs, identical): refresh the first active buff of
the same type, or append a fresh `BuffWithDuration`. -/
def gainBuffEffect (activeBuffs : List BuffWithDuration) (buffType : ℕ)
    (duration : ℤ) (newBid : ℕ) : List BuffWithDuration :=
  match activeBuffs.filter fun b => b.buffType = buffType with
  | [] => activeBuffs ++ [mkBuff newBid buffType (some duration)]
  | b0 :: _ => updateByBid activeBuffs (b0.setRemainingDuration duration)

/-- C5 (confirmed): `gain_buff_effect` on an owner (player or NPC, the code is
identical) that already has an active buff of the given type never appends a
second entry: the list keeps its length, every other entry is untouched, and
the matching entry changes only its remaining duration, which is set to the
new duration. -/
theorem gainBuffEffect_refreshes_existing (bs : List BuffWithDuration) (bt : ℕ)
    (d : ℤ) (nid : ℕ) (hnd : (bs.map fun b => b.bid).Nodup)
    (hex : ∃ b ∈ bs, b.buffType = bt) :
    (gainBuffEffect bs bt d nid).length = bs.length ∧
    ∃ b0 ∈ bs, b0.buffType = bt ∧
      gainBuffEffect bs bt d nid =
        bs.map fun b =>
          if b.bid = b0.bid then { b with timeUntilExpiration := some d } else b := by
  cases hfl : bs.filter (fun b => b.buffType = bt) with
  | nil =>
      exfalso
      obtain ⟨b, hb, hbt⟩ := hex
      have : b ∈ bs.filter (fun b => b.buffType = bt) :=
        List.mem_filter.mpr ⟨hb, by simpa using hbt⟩
      rw [hfl] at this
      exact absurd this (List.not_mem_nil b)
  | cons b0 tl =>
      have hb0f : b0 ∈ bs.filter (fun b => b.buffType = bt) := by
        rw [hfl]; exact List.mem_cons_self b0 tl
      have hb0 := List.mem_filter.mp hb0f
      have hb0bs : b0 ∈ bs := hb0.1
      have hb0bt : b0.buffType = bt := by simpa using hb0.2
      refine ⟨?_, b0, hb0bs, hb0bt, ?_⟩
      · simp [gainBuffEffect, hfl, updateByBid]
      · simp only [gainBuffEffect, hfl, updateByBid]
        apply List.map_congr_left
        intro b hb
        by_cases hid : b.bid = (b0.setRemainingDuration d).bid
        · have hid0 : b.bid = b0.bid := by
            simpa [BuffWithDuration.setRemainingDuration] using hid
          have hbb0 : b = b0 :=
            List.inj_on_of_nodup_map hnd hb hb0bs hid0
          rw [if_pos hid, if_pos hid0, hbb0]
          rfl
        · have hid0 : ¬ b.bid = b0.bid := by
            simpa [BuffWithDuration.setRemainingDuration] using hid
          rw [if_neg hid, if_neg hid0]

/-- C5 witness: two buffs of types 3 and 7; re-applying type 3 with duration
2000 keeps the list at length 2 and only refreshes the first entry's
remaining duration. -/
theorem gainBuffEffect_refreshes_existing_witness :
    (gainBuffEffect [mkBuff 0 3 (some 500), mkBuff 1 7 (some 800)] 3 2000 9).length = 2 ∧
    gainBuffEffect [mkBuff 0 3 (some 500), mkBuff 1 7 (some 800)] 3 2000 9 =
      [⟨0, 3, some 2000, false, some 500, false⟩, mkBuff 1 7 (some 800)] := by
  obtain ⟨hlen, b0, hmem, hbt, heq⟩ :=
    gainBuffEffect_refreshes_existing [mkBuff 0 3 (some 500), mkBuff 1 7 (some 800)]
      3 2000 9 (by decide) ⟨mkBuff 0 3 (some 500), by simp, by decide⟩
  have hb0 : b0 = mkBuff 0 3 (some 500) := by
    rcases List.mem_cons.mp hmem with h | h
    · exact h
    · rcases List.mem_cons.mp h with h2 | h2
      · rw [h2] at hbt
        exact absurd hbt (by decide)
      · exact absurd h2 (List.not_mem_nil b0)
  refine ⟨by simpa using hlen, ?_⟩
  rw [heq, hb0]
  decide

lemma handleBuffsLoop_isSome (t : ℤ) (snap : List BuffWithDuration) :
    ∀ act st acv en,
      (handleBuffsLoop t snap act st acv en).isSome = true ↔
        ∀ b ∈ snap, b.timeUntilExpiration ≠ none := by
  induction snap with
  | nil => intro act st acv en; simp [handleBuffsLoop]
  | cons b rest ih =>
      intro act st acv en
      simp only [handleBuffsLoop]
      split
      next hb =>
        have hbt : b.timeUntilExpiration = none := by
          cases hbt : b.timeUntilExpiration with
          | none => rfl
          | some r => rw [BuffWithDuration.notifyTimePassed, hbt] at hb; simp at hb
        constructor
        · intro h; simp at h
        · intro h
          exact absurd hbt (h b (List.mem_cons_self b rest))
      next b1 hb =>
        have hbt : b.timeUntilExpiration ≠ none := by
          intro hn
          rw [BuffWithDuration.notifyTimePassed, hn] at hb
          simp at hb
        by_cases h1 : b1.hasAppliedStartEffect = false
        · rw [if_pos h1, ih]
          simp [hbt]
        · rw [if_neg h1]
          by_cases h2 : b1.hasExpired = some true
          · rw [if_pos h2, ih]
            simp [hbt]
          · rw [if_neg h2, ih]
            simp [hbt]

/-- C10 (confirmed): a `BuffWithDuration` built with duration `None` makes the
very first `notify_time_passed` raise a `TypeError` (`None - int`), so a
`handle_buffs` pass completes without error exactly when every buff in the
list carries a non-`None` duration. -/
theorem handleBuffs_requires_durations (bs : List BuffWithDuration) (t : ℤ) :
    ((handleBuffs bs t).isSome = true ↔ ∀ b ∈ bs, b.timeUntilExpiration ≠ none) ∧
    ∀ b : BuffWithDuration, b.timeUntilExpiration = none →
      b.notifyTimePassed t = none := by
  constructor
  · exact handleBuffsLoop_isSome t bs bs [] [] []
  · intro b hb
    rw [BuffWithDuration.notifyTimePassed, hb]
    rfl

/-- C10 witness: a single buff constructed with duration `None` makes
`handle_buffs` raise. -/
theorem handleBuffs_requires_durations_witness :
    handleBuffs [mkBuff 0 5 none] 100 = none := by
  cases hr : handleBuffs [mkBuff 0 5 none] 100 with
  | none => rfl
  | some r =>
      exfalso
      have h := (handleBuffs_requires_durations [mkBuff 0 5 none] 100).1
      have hall : ∀ b ∈ [mkBuff 0 5 none], b.timeUntilExpiration ≠ none :=
        h.mp (by rw [hr]; rfl)
      exact hall (mkBuff 0 5 none) (List.mem_cons_self _ _) rfl

/-- C3 counterexample: a freshly gained buff (duration 1000, ticked 100) is
classified both `started` and `active` by the same `handle_buffs` call, so
the three returned lists are not pairwise disjoint. -/
theorem handleBuffs_started_active_overlap :
    ¬ (∀ r, handleBuffs [mkBuff 0 5 (some 1000)] 100 = some r →
        ∀ a ∈ r.2.buffsThatStarted, a ∉ r.2.buffsThatWereActive) := by
  intro h
  have hval : handleBuffs [mkBuff 0 5 (some 1000)] 100 =
      some ([⟨0, 5, some 900, false, some 1000, true⟩],
        ⟨[⟨0, 5, some 900, false, some 1000, true⟩],
         [⟨0, 5, some 900, false, some 1000, true⟩], []⟩) := by decide
  exact h _ hval (⟨0, 5, some 900, false, some 1000, true⟩ : BuffWithDuration)
    (by simp) (by simp)

lemma handleBuffsLoop_started_ended_disjoint (t : ℤ) (snap : List BuffWithDuration) :
    ∀ act st acv en r,
      (snap.map fun b => b.bid).Nodup →
      (∀ a ∈ st, ∀ e ∈ en, a.bid ≠ e.bid) →
      (∀ x ∈ st ++ en, ∀ c ∈ snap, x.bid ≠ c.bid) →
      handleBuffsLoop t snap act st acv en = some r →
      ∀ a ∈ r.2.buffsThatStarted, ∀ e ∈ r.2.buffsThatEnded, a.bid ≠ e.bid := by
  induction snap with
  | nil =>
      intro act st acv en r _ hdisj _ hr
      simp only [handleBuffsLoop, Option.some.injEq] at hr
      rw [← hr]
      exact hdisj
  | cons b rest ih =>
      intro act st acv en r hnd hdisj hfresh hr
      have hndr : (rest.map fun b => b.bid).Nodup := by
        simp only [List.map_cons, List.nodup_cons] at hnd
        exact hnd.2
      have hbid : b.bid ∉ rest.map fun b => b.bid := by
        simp only [List.map_cons, List.nodup_cons] at hnd
        exact hnd.1
      simp only [handleBuffsLoop] at hr
      split at hr
      · exact absurd hr (by simp)
      next b1 hb =>
        have hb1 : b1.bid = b.bid := by
          rcases hbt : b.timeUntilExpiration with _ | v
          · rw [BuffWithDuration.notifyTimePassed, hbt] at hb
            exact absurd hb (by simp)
          · rw [BuffWithDuration.notifyTimePassed, hbt] at hb
            have hv : ({ b with timeUntilExpiration := some (v - t) } :
                BuffWithDuration) = b1 := by simpa using hb
            rw [← hv]
        by_cases h1 : b1.hasAppliedStartEffect = false
        · rw [if_pos h1] at hr
          refine ih _ _ _ _ r hndr ?_ ?_ hr
          · intro a ha e he
            rcases List.mem_append.mp ha with ha1 | ha1
            · exact hdisj a ha1 e he
            · have ha2 : a.bid = b.bid := by
                simp only [List.mem_singleton] at ha1
                rw [ha1]
                exact hb1
              rw [ha2]
              exact fun hc =>
                (hfresh e (List.mem_append_right st he) b (List.mem_cons_self b rest))
                  hc.symm
          · intro x hx c hc
            rcases List.mem_append.mp hx with hx1 | hx1
            · rcases List.mem_append.mp hx1 with hx2 | hx2
              · exact hfresh x (List.mem_append_left en hx2) c (List.mem_cons_of_mem b hc)
              · have hx3 : x.bid = b.bid := by
                  simp only [List.mem_singleton] at hx2
                  rw [hx2]
                  exact hb1
                rw [hx3]
                intro hcon
                exact hbid (by rw [hcon]; exact List.mem_map_of_mem _ hc)
            · exact hfresh x (List.mem_append_right st hx1) c (List.mem_cons_of_mem b hc)
        · rw [if_neg h1] at hr
          by_cases h2 : b1.hasExpired = some true
          · rw [if_pos h2] at hr
            refine ih _ _ _ _ r hndr ?_ ?_ hr
            · intro a ha e he
              rcases List.mem_append.mp he with he1 | he1
              · exact hdisj a ha e he1
              · have he2 : e.bid = b.bid := by
                  simp only [List.mem_singleton] at he1
                  rw [he1]
                  exact hb1
                rw [he2]
                exact hfresh a (List.mem_append_left en ha) b (List.mem_cons_self b rest)
            · intro x hx c hc
              rcases List.mem_append.mp hx with hx1 | hx1
              · exact hfresh x (List.mem_append_left en hx1) c (List.mem_cons_of_mem b hc)
              · rcases List.mem_append.mp hx1 with hx2 | hx2
                · exact hfresh x (List.mem_append_right st hx2) c
                    (List.mem_cons_of_mem b hc)
                · have hx3 : x.bid = b.bid := by
                    simp only [List.mem_singleton] at hx2
                    rw [hx2]
                    exact hb1
                  rw [hx3]
                  intro hcon
                  exact hbid (by rw [hcon]; exact List.mem_map_of_mem _ hc)
          · rw [if_neg h2] at hr
            refine ih _ _ _ _ r hndr hdisj ?_ hr
            intro x hx c hc
            exact hfresh x hx c (List.mem_cons_of_mem b hc)

/-- C3 (corrected): in one `handle_buffs` call the `started` and `ended`
lists are disjoint (the classification is an if/elif), but `active` is not
disjoint from them: every non-force-cancelled buff of the snapshot is
appended to `active`, including just-started and just-expired ones (see
`handleBuffs_started_active_overlap`). -/
theorem handleBuffs_started_ended_disjoint (bs : List BuffWithDuration) (t : ℤ)
    (r : List BuffWithDuration × AgentBuffsUpdate)
    (hnd : (bs.map fun b => b.bid).Nodup) (hr : handleBuffs bs t = some r) :
    ∀ a ∈ r.2.buffsThatStarted, ∀ e ∈ r.2.buffsThatEnded, a.bid ≠ e.bid := by
  refine handleBuffsLoop_started_ended_disjoint t bs bs [] [] [] r hnd ?_ ?_ hr
  · intro a ha; exact absurd ha (List.not_mem_nil a)
  · intro x hx; exact absurd hx (by simp)

/-- C3 witness: a fresh buff (id 0) and an expiring started buff (id 1)
ticked together; the theorem applied to that call yields that the started
buff id differs from the ended buff id. -/
theorem handleBuffs_started_ended_disjoint_witness :
    (⟨0, 5, some 900, false, some 1000, true⟩ : BuffWithDuration).bid ≠
      (⟨1, 6, some (-50), false, some 500, true⟩ : BuffWithDuration).bid :=
  handleBuffs_started_ended_disjoint
    [mkBuff 0 5 (some 1000), ⟨1, 6, some 50, false, some 500, true⟩] 100
    ([⟨0, 5, some 900, false, some 1000, true⟩],
      ⟨[⟨0, 5, some 900, false, some 1000, true⟩],
       [⟨0, 5, some 900, false, some 1000, true⟩, ⟨1, 6, some (-50), false, some 500, true⟩],
       [⟨1, 6, some (-50), false, some 500, true⟩]⟩)
    (by decide) (by decide)
    (⟨0, 5, some 900, false, some 1000, true⟩ : BuffWithDuration) (by simp)
    (⟨1, 6, some (-50), false, some 500, true⟩ : BuffWithDuration) (by simp)

/-- A sequence of `handle_buffs` calls on one owner, one call per time delta,
threading the owner's live buff list; collects each call's classification. -/
def runBuffs : List BuffWithDuration → List ℤ →
    Option (List BuffWithDuration × List AgentBuffsUpdate)
  | bs, [] => some (bs, [])
  | bs, t :: ts =>
    match handleBuffs bs t with
    | none => none
    | some (bs1, upd) =>
      match runBuffs bs1 ts with
      | none => none
      | some (bs2, upds) => some (bs2, upd :: upds)

/-- The call classified the buff with identity `i` as started. -/
def startedIn (u : AgentBuffsUpdate) (i : ℕ) : Bool :=
  u.buffsThatStarted.any fun b => b.bid = i

/-- The call classified the buff with identity `i` as ended. -/
def endedIn (u : AgentBuffsUpdate) (i : ℕ) : Bool :=
  u.buffsThatEnded.any fun b => b.bid = i

/-- C4 counterexample: a buff of duration 100 ticked by the single positive
delta 100 (deltas sum exactly to the duration) is started once but ended in
no call: it stays in the owner's list (length 1), so the end hook never
fired during these calls. -/
theorem single_delta_exact_duration_not_ended :
    (∀ d ∈ [(100 : ℤ)], 0 < d) ∧ ([(100 : ℤ)].sum = 100) ∧
    (runBuffs [mkBuff 0 5 (some 100)] [100]).map
        (fun r => (r.1.length, r.2.countP (startedIn · 0), r.2.countP (endedIn · 0))) =
      some (1, 1, 0) := by
  refine ⟨by decide, by decide, by decide⟩

/-- One `handle_buffs` call on a single already-started, not-cancelled buff:
it ticks down and is removed exactly when the new remaining time is ≤ 0. -/
lemma handleBuffs_singleton_started (i ty : ℕ) (r t : ℤ) (td : Option ℤ) :
    handleBuffs [⟨i, ty, some r, false, td, true⟩] t =
      if r - t ≤ 0 then
        some ([], ⟨[], [⟨i, ty, some (r - t), false, td, true⟩],
          [⟨i, ty, some (r - t), false, td, true⟩]⟩)
      else
        some ([⟨i, ty, some (r - t), false, td, true⟩],
          ⟨[], [⟨i, ty, some (r - t), false, td, true⟩], []⟩) := by
  by_cases hexp : r - t ≤ 0
  · rw [if_pos hexp]
    simp [handleBuffs, handleBuffsLoop, BuffWithDuration.notifyTimePassed,
      BuffWithDuration.hasExpired, updateByBid, removeByBid, hexp]
  · rw [if_neg hexp]
    simp [handleBuffs, handleBuffsLoop, BuffWithDuration.notifyTimePassed,
      BuffWithDuration.hasExpired, updateByBid, removeByBid, hexp]

/-- One `handle_buffs` call on a single fresh buff: it is always classified
started (and active), never ended, whatever the remaining time. -/
lemma handleBuffs_singleton_fresh (i ty : ℕ) (d t : ℤ) :
    handleBuffs [mkBuff i ty (some d)] t =
      some ([⟨i, ty, some (d - t), false, some d, true⟩],
        ⟨[⟨i, ty, some (d - t), false, some d, true⟩],
         [⟨i, ty, some (d - t), false, some d, true⟩], []⟩) := by
  simp [handleBuffs, handleBuffsLoop, BuffWithDuration.notifyTimePassed, mkBuff,
    updateByBid]

/-- Runs after the buff has started: with positive deltas summing exactly to
the remaining time, the buff is never started again and is ended exactly
once, in the last call, leaving the owner's list empty. -/
lemma runBuffs_started_exact (i ty : ℕ) (td : Option ℤ) (ds : List ℤ) :
    ∀ r : ℤ, ds ≠ [] → (∀ d ∈ ds, 0 < d) → ds.sum = r →
      ∃ upds, runBuffs [⟨i, ty, some r, false, td, true⟩] ds = some ([], upds) ∧
        upds.countP (startedIn · i) = 0 ∧ upds.countP (endedIn · i) = 1 := by
  induction ds with
  | nil => intro r hne; exact absurd rfl hne
  | cons d ds ih =>
      intro r _ hpos hsum
      by_cases hds : ds = []
      · subst hds
        have hd : d = r := by simpa using hsum
        subst hd
        refine ⟨[⟨[], [⟨i, ty, some (d - d), false, td, true⟩],
          [⟨i, ty, some (d - d), false, td, true⟩]⟩], ?_, ?_, ?_⟩
        · show runBuffs [⟨i, ty, some d, false, td, true⟩] [d] = _
          simp only [runBuffs, handleBuffs_singleton_started]
          rw [if_pos (by omega)]
        · simp [startedIn]
        · simp [endedIn]
      · have hdr : d < r := by
          have hpos' : ∀ x ∈ ds, 0 < x := fun x hx => hpos x (List.mem_cons_of_mem d hx)
          have : 0 < ds.sum := List.sum_pos ds hpos' hds
          have hs : d + ds.sum = r := by simpa using hsum
          omega
        obtain ⟨upds, hrun, hst, hen⟩ :=
          ih (r - d) hds (fun x hx => hpos x (List.mem_cons_of_mem d hx))
            (by
              have hs : d + ds.sum = r := by simpa using hsum
              omega)
        refine ⟨⟨[], [⟨i, ty, some (r - d), false, td, true⟩], []⟩ :: upds, ?_, ?_, ?_⟩
        · show runBuffs [⟨i, ty, some r, false, td, true⟩] (d :: ds) = _
          simp only [runBuffs, handleBuffs_singleton_started]
          rw [if_neg (by omega)]
          simp only [hrun]
        · rw [List.countP_cons_of_neg]
          · exact hst
          · simp [startedIn]
        · rw [List.countP_cons_of_neg]
          · exact hen
          · simp [endedIn]

/-- C4 (corrected): a fresh buff of duration D alone in its owner's list,
ticked via `handle_buffs` with AT LEAST TWO positive deltas summing exactly
to D, is classified started in exactly one call and ended (removed from the
owner's list, which ends empty) in exactly one call.  With a single delta
equal to D the expiry is not detected in that same call — the started branch
skips the expiry check — so one further call is needed (see
`single_delta_exact_duration_not_ended`). -/
theorem buff_exact_duration_lifecycle (i ty : ℕ) (D : ℤ) (ds : List ℤ)
    (hlen : 2 ≤ ds.length) (hpos : ∀ d ∈ ds, 0 < d) (hsum : ds.sum = D) :
    ∃ upds, runBuffs [mkBuff i ty (some D)] ds = some ([], upds) ∧
      upds.countP (startedIn · i) = 1 ∧ upds.countP (endedIn · i) = 1 := by
  cases ds with
  | nil => simp at hlen
  | cons d ds =>
      have hds : ds ≠ [] := by
        intro h
        rw [h] at hlen
        simp at hlen
      obtain ⟨upds, hrun, hst, hen⟩ :=
        runBuffs_started_exact i ty (some D) ds (D - d) hds
          (fun x hx => hpos x (List.mem_cons_of_mem d hx))
          (by
            have hs : d + ds.sum = D := by simpa using hsum
            omega)
      refine ⟨⟨[⟨i, ty, some (D - d), false, some D, true⟩],
        [⟨i, ty, some (D - d), false, some D, true⟩], []⟩ :: upds, ?_, ?_, ?_⟩
      · show runBuffs [mkBuff i ty (some D)] (d :: ds) = _
        simp only [runBuffs, handleBuffs_singleton_fresh]
        simp only [hrun]
      · rw [List.countP_cons_of_pos]
        · rw [hst]
        · simp [startedIn]
      · rw [List.countP_cons_of_neg]
        · exact hen
        · simp [endedIn]

/-- C4 witness: duration 100 ticked with deltas 60 and 40: the owner ends
with no buffs, one call started the buff and one call ended it. -/
theorem buff_exact_duration_lifecycle_witness :
    (runBuffs [mkBuff 0 5 (some 100)] [60, 40]).map
        (fun r => (r.1, r.2.countP (startedIn · 0), r.2.countP (endedIn · 0))) =
      some ([], 1, 1) := by
  obtain ⟨upds, hrun, hst, hen⟩ :=
    buff_exact_duration_lifecycle 0 5 100 [60, 40] (by decide) (by decide) (by decide)
  rw [hrun]
  simp [hst, hen]

/-! ## PlayerState experience and leveling (game_state.py lines 374-608)

Only the fields touched by `gain_exp` and `_update_stats_for_new_level` are
modelled.  The ability dictionary `new_level_abilities` becomes an
association list, the talent tiers (`TalentsState.has_tier_for_level` /
`unlock_tier`, talents.py is outside src) become the list of levels that own
a tier.  `statUpdateCount` is ghost instrumentation that counts the
invocations of `_update_stats_for_new_level` and touches nothing else.
Python's float literals `1.6` and `1.1` are modelled as the exact rationals
8/5 and 11/10; `int(x)` on a nonnegative float is `Int.floor`.  The source
`while` loop has no positivity guard on `max_exp_in_this_level` and would
spin forever at 0; the model exits there instead (the value starts at 50 and
`⌊m * 8/5⌋` keeps it positive, so the case is unreachable). -/

structure PlayerLevelBonus where
  health : ℤ
  mana : ℤ
  armor : ℚ
deriving DecidableEq

inductive GainExpEvent where
  | playerLeveledUp
  | playerLearnedNewAbility (ability : ℕ)
  | playerUnlockedNewTalent
deriving DecidableEq

structure PlayerState where
  healthResource : HealthOrManaResource
  manaResource : HealthOrManaResource
  exp : ℕ
  level : ℕ
  maxExpInThisLevel : ℕ
  abilities : List ℕ
  newLevelAbilities : List (ℕ × ℕ)
  talentTierLevels : List ℕ
  unlockedTalentTiers : List ℕ
  basePhysicalDamageModifier : ℚ
  baseMagicDamageModifier : ℚ
  baseArmor : ℚ
  levelBonus : PlayerLevelBonus
  statUpdateCount : ℕ
deriving DecidableEq

/-- Source `_update_stats_for_new_level` (game_state.py lines 561-570). -/
def updateStatsForNewLevel (ps : PlayerState) : PlayerState :=
  { ps with
    healthResource := ((ps.healthResource.increaseMax ps.levelBonus.health).gainToMax).1
    manaResource := ((ps.manaResource.increaseMax ps.levelBonus.mana).gainToMax).1
    maxExpInThisLevel := (⌊(ps.maxExpInThisLevel : ℚ) * (8 / 5)⌋).toNat
    basePhysicalDamageModifier := ps.basePhysicalDamageModifier * (11 / 10)
    baseMagicDamageModifier := ps.baseMagicDamageModifier * (11 / 10)
    baseArmor := ps.baseArmor + ps.levelBonus.armor
    statUpdateCount := ps.statUpdateCount + 1 }

/-- Source `gain_ability(ability_type)`: appends the ability (the cooldown map is
not modelled). -/
def gainAbility (ps : PlayerState) (a : ℕ) : PlayerState :=
  { ps with abilities := ps.abilities ++ [a] }

/-- One iteration of the `while` loop in `gain_exp`: consume one level's
experience, bump the level, recompute stats, then possibly learn an ability
and unlock a talent tier, collecting the events of this iteration. -/
def levelStep (ps : PlayerState) : PlayerState × List GainExpEvent :=
  let ps2 := updateStatsForNewLevel
    { ps with exp := ps.exp - ps.maxExpInThisLevel, level := ps.level + 1 }
  match ps2.newLevelAbilities.lookup ps2.level with
  | some a =>
    let ps3 := gainAbility ps2 a
    if ps3.level ∈ ps3.talentTierLevels then
      ({ ps3 with unlockedTalentTiers := ps3.unlockedTalentTiers ++ [ps3.level] },
        [.playerLearnedNewAbility a, .playerUnlockedNewTalent])
    else
      (ps3, [.playerLearnedNewAbility a])
  | none =>
    if ps2.level ∈ ps2.talentTierLevels then
      ({ ps2 with unlockedTalentTiers := ps2.unlockedTalentTiers ++ [ps2.level] },
        [.playerUnlockedNewTalent])
    else
      (ps2, [])

lemma levelStep_exp (ps : PlayerState) :
    (levelStep ps).1.exp = ps.exp - ps.maxExpInThisLevel := by
  simp only [levelStep, gainAbility, updateStatsForNewLevel]
  split <;> split <;> rfl

lemma levelStep_level (ps : PlayerState) :
    (levelStep ps).1.level = ps.level + 1 := by
  simp only [levelStep, gainAbility, updateStatsForNewLevel]
  split <;> split <;> rfl

lemma levelStep_statUpdateCount (ps : PlayerState) :
    (levelStep ps).1.statUpdateCount = ps.statUpdateCount + 1 := by
  simp only [levelStep, gainAbility, updateStatsForNewLevel]
  split <;> split <;> rfl

lemma levelStep_no_levelup_event (ps : PlayerState) :
    (levelStep ps).2.count GainExpEvent.playerLeveledUp = 0 := by
  simp only [levelStep, gainAbility, updateStatsForNewLevel]
  split <;> split <;> simp [List.count_cons, List.count_nil]

/-- The `while self.exp >= self.max_exp_in_this_level` loop of `gain_exp`. -/
def gainExpLoop (ps : PlayerState) (events : List GainExpEvent) :
    PlayerState × List GainExpEvent :=
  if h : 0 < ps.maxExpInThisLevel ∧ ps.maxExpInThisLevel ≤ ps.exp then
    gainExpLoop (levelStep ps).1 (events ++ (levelStep ps).2)
  else
    (ps, events)
termination_by ps.exp
decreasing_by
  rw [levelStep_exp]
  exact Nat.sub_lt (Nat.lt_of_lt_of_le h.1 h.2) h.1

/-- Source `gain_exp(amount)` (game_state.py lines 526-544): add the experience,
append a single `PlayerLeveledUp` event if the current threshold is reached,
then run the leveling loop. -/
def gainExp (ps : PlayerState) (amount : ℕ) : PlayerState × List GainExpEvent :=
  let ps1 := { ps with exp := ps.exp + amount }
  let events0 : List GainExpEvent :=
    if ps1.maxExpInThisLevel ≤ ps1.exp then [.playerLeveledUp] else []
  gainExpLoop ps1 events0

lemma gainExpLoop_spec (n : ℕ) : ∀ ps events, ps.exp = n →
    (gainExpLoop ps events).2.count GainExpEvent.playerLeveledUp =
        events.count GainExpEvent.playerLeveledUp ∧
    ps.level ≤ (gainExpLoop ps events).1.level ∧
    (gainExpLoop ps events).1.statUpdateCount =
      ps.statUpdateCount + ((gainExpLoop ps events).1.level - ps.level) := by
  induction n using Nat.strong_induction_on with
  | _ n ih =>
      intro ps events hn
      rw [gainExpLoop]
      by_cases h : 0 < ps.maxExpInThisLevel ∧ ps.maxExpInThisLevel ≤ ps.exp
      · rw [dif_pos h]
        have hlt : (levelStep ps).1.exp < n := by
          rw [levelStep_exp, ← hn]
          exact Nat.sub_lt (Nat.lt_of_lt_of_le h.1 h.2) h.1
        obtain ⟨hcount, hlev, hstat⟩ :=
          ih (levelStep ps).1.exp hlt (levelStep ps).1 (events ++ (levelStep ps).2) rfl
        have hl1 : (levelStep ps).1.level = ps.level + 1 := levelStep_level ps
        have hs1 : (levelStep ps).1.statUpdateCount = ps.statUpdateCount + 1 :=
          levelStep_statUpdateCount ps
        rw [hl1] at hlev
        rw [hs1, hl1] at hstat
        refine ⟨?_, ?_, ?_⟩
        · rw [hcount, List.count_append, levelStep_no_levelup_event]
          omega
        · omega
        · omega
      · rw [dif_neg h]
        exact ⟨rfl, Nat.le_refl _, by simp⟩

/-- C2 (corrected): however many levels one `gain_exp` call grants, the
returned event list contains exactly one `PlayerLeveledUp` when the gain
reaches the current threshold (and none otherwise) — the source appends the
event once, before the leveling loop — while `_update_stats_for_new_level`
runs once per level actually gained. -/
theorem gainExp_levelup_event_count (ps : PlayerState) (amount : ℕ) :
    (gainExp ps amount).2.count GainExpEvent.playerLeveledUp =
        (if ps.maxExpInThisLevel ≤ ps.exp + amount then 1 else 0) ∧
    (gainExp ps amount).1.statUpdateCount =
      ps.statUpdateCount + ((gainExp ps amount).1.level - ps.level) := by
  obtain ⟨hcount, hlev, hstat⟩ := gainExpLoop_spec (ps.exp + amount)
    { ps with exp := ps.exp + amount }
    (if ps.maxExpInThisLevel ≤ ps.exp + amount then [.playerLeveledUp] else []) rfl
  constructor
  · rw [gainExp]
    simp only
    rw [hcount]
    by_cases h : ps.maxExpInThisLevel ≤ ps.exp + amount
    · rw [if_pos h, if_pos h]
      rfl
    · rw [if_neg h, if_neg h]
      rfl
  · rw [gainExp]
    simp only
    exact hstat

/-- The player state as `PlayerState.__init__` builds it for a warrior-like
hero (no level-gated abilities or talent tiers configured): experience 0,
level 1, threshold 50. -/
def initialPlayer : PlayerState :=
  { healthResource := HealthOrManaResource.init 50 0
    manaResource := HealthOrManaResource.init 30 0
    exp := 0
    level := 1
    maxExpInThisLevel := 50
    abilities := []
    newLevelAbilities := []
    talentTierLevels := []
    unlockedTalentTiers := []
    basePhysicalDamageModifier := 1
    baseMagicDamageModifier := 1
    baseArmor := 2
    levelBonus := ⟨10, 5, 1⟩
    statUpdateCount := 0 }

/-- C2 counterexample: gaining 300 experience at once grants exactly three
levels (thresholds 50, 80, 128; final experience 42 below the next threshold
204) and runs the per-level stat update three times, yet the returned event
list contains exactly ONE `PlayerLeveledUp`, not three. -/
theorem gainExp_three_levels_single_event :
    (gainExp initialPlayer 300).1.level = initialPlayer.level + 3 ∧
    (gainExp initialPlayer 300).1.statUpdateCount = 3 ∧
    (gainExp initialPlayer 300).2.count GainExpEvent.playerLeveledUp = 1 ∧
    (gainExp initialPlayer 300).2.count GainExpEvent.playerLeveledUp ≠ 3 := by
  have h0 : gainExp initialPlayer 300 =
      gainExpLoop ⟨⟨50, 50, 50, 0, 0⟩, ⟨30, 30, 30, 0, 0⟩, 300, 1, 50, [], [], [], [],
        1, 1, 2, ⟨10, 5, 1⟩, 0⟩ [.playerLeveledUp] := rfl
  have h1 : gainExpLoop
      (⟨⟨50, 50, 50, 0, 0⟩, ⟨30, 30, 30, 0, 0⟩, 300, 1, 50, [], [], [], [],
        1, 1, 2, ⟨10, 5, 1⟩, 0⟩ : PlayerState) [.playerLeveledUp] =
      gainExpLoop ⟨⟨60, 60, 60, 0, 0⟩, ⟨35, 35, 35, 0, 0⟩, 250, 2, 80, [], [], [], [],
        11 / 10, 11 / 10, 3, ⟨10, 5, 1⟩, 1⟩ [.playerLeveledUp] := by
    rw [gainExpLoop, dif_pos (by decide)]
    rw [show levelStep ⟨⟨50, 50, 50, 0, 0⟩, ⟨30, 30, 30, 0, 0⟩, 300, 1, 50, [], [], [], [],
        1, 1, 2, ⟨10, 5, 1⟩, 0⟩ =
      (⟨⟨60, 60, 60, 0, 0⟩, ⟨35, 35, 35, 0, 0⟩, 250, 2, 80, [], [], [], [],
        11 / 10, 11 / 10, 3, ⟨10, 5, 1⟩, 1⟩, []) from by
      simp only [levelStep, updateStatsForNewLevel, gainAbility,
        HealthOrManaResource.increaseMax, HealthOrManaResource.gainToMax, List.lookup]
      norm_num
      decide]
    rfl
  have h2 : gainExpLoop
      (⟨⟨60, 60, 60, 0, 0⟩, ⟨35, 35, 35, 0, 0⟩, 250, 2, 80, [], [], [], [],
        11 / 10, 11 / 10, 3, ⟨10, 5, 1⟩, 1⟩ : PlayerState) [.playerLeveledUp] =
      gainExpLoop ⟨⟨70, 70, 70, 0, 0⟩, ⟨40, 40, 40, 0, 0⟩, 170, 3, 128, [], [], [], [],
        121 / 100, 121 / 100, 4, ⟨10, 5, 1⟩, 2⟩ [.playerLeveledUp] := by
    rw [gainExpLoop, dif_pos (by decide)]
    rw [show levelStep ⟨⟨60, 60, 60, 0, 0⟩, ⟨35, 35, 35, 0, 0⟩, 250, 2, 80, [], [], [], [],
        11 / 10, 11 / 10, 3, ⟨10, 5, 1⟩, 1⟩ =
      (⟨⟨70, 70, 70, 0, 0⟩, ⟨40, 40, 40, 0, 0⟩, 170, 3, 128, [], [], [], [],
        121 / 100, 121 / 100, 4, ⟨10, 5, 1⟩, 2⟩, []) from by
      simp only [levelStep, updateStatsForNewLevel, gainAbility,
        HealthOrManaResource.increaseMax, HealthOrManaResource.gainToMax, List.lookup]
      norm_num
      decide]
    rfl
  have h3 : gainExpLoop
      (⟨⟨70, 70, 70, 0, 0⟩, ⟨40, 40, 40, 0, 0⟩, 170, 3, 128, [], [], [], [],
        121 / 100, 121 / 100, 4, ⟨10, 5, 1⟩, 2⟩ : PlayerState) [.playerLeveledUp] =
      gainExpLoop ⟨⟨80, 80, 80, 0, 0⟩, ⟨45, 45, 45, 0, 0⟩, 42, 4, 204, [], [], [], [],
        1331 / 1000, 1331 / 1000, 5, ⟨10, 5, 1⟩, 3⟩ [.playerLeveledUp] := by
    rw [gainExpLoop, dif_pos (by decide)]
    rw [show levelStep ⟨⟨70, 70, 70, 0, 0⟩, ⟨40, 40, 40, 0, 0⟩, 170, 3, 128, [], [], [], [],
        121 / 100, 121 / 100, 4, ⟨10, 5, 1⟩, 2⟩ =
      (⟨⟨80, 80, 80, 0, 0⟩, ⟨45, 45, 45, 0, 0⟩, 42, 4, 204, [], [], [], [],
        1331 / 1000, 1331 / 1000, 5, ⟨10, 5, 1⟩, 3⟩, []) from by
      simp only [levelStep, updateStatsForNewLevel, gainAbility,
        HealthOrManaResource.increaseMax, HealthOrManaResource.gainToMax, List.lookup]
      norm_num
      decide]
    rfl
  have h4 : gainExpLoop
      (⟨⟨80, 80, 80, 0, 0⟩, ⟨45, 45, 45, 0, 0⟩, 42, 4, 204, [], [], [], [],
        1331 / 1000, 1331 / 1000, 5, ⟨10, 5, 1⟩, 3⟩ : PlayerState) [.playerLeveledUp] =
      (⟨⟨80, 80, 80, 0, 0⟩, ⟨45, 45, 45, 0, 0⟩, 42, 4, 204, [], [], [], [],
        1331 / 1000, 1331 / 1000, 5, ⟨10, 5, 1⟩, 3⟩, [.playerLeveledUp]) := by
    rw [gainExpLoop, dif_neg (by decide)]
  rw [h0, h1, h2, h3, h4]
  refine ⟨rfl, rfl, by decide, by decide⟩

/-! ## World entities, the spatial bucket index, and the movement resolver

`WorldEntity` (game_state.py lines 18-106): only the fields used by the
claims are modelled; `eid` models Python object identity.  Positions, sizes
and the per-frame distance are integers.  `Direction` and
`translate_in_direction` live in core/common.py and core/math.py, which are
not under src/ and are modelled from the spec. -/

/-- Modelled from the spec: the four facing directions of core/common.py's
`Direction` (not under src/). -/
inductive Dir where
  | up
  | down
  | left
  | right
deriving DecidableEq

structure WEntity where
  eid : ℕ
  x : ℤ
  y : ℤ
  w : ℤ
  h : ℤ
  direction : Dir
  effectiveSpeed : ℤ
  isMoving : Bool
deriving DecidableEq

/-- Modelled from the spec: core/math.py's `translate_in_direction` (not
under src/) — "compute a candidate position from current direction ×
effective speed × dt": move the position by the given distance along the
facing axis (screen coordinates, y grows downwards). -/
def translateInDirection (pos : ℤ × ℤ) (d : Dir) (distance : ℤ) : ℤ × ℤ :=
  match d with
  | .up => (pos.1, pos.2 - distance)
  | .down => (pos.1, pos.2 + distance)
  | .left => (pos.1 - distance, pos.2)
  | .right => (pos.1 + distance, pos.2)

/-- Source `get_new_position_according_to_dir_and_speed(time_passed)`: `None` when
the entity is not in a moving state. -/
def WEntity.getNewPositionAccordingToDirAndSpeed (e : WEntity) (t : ℤ) :
    Option (ℤ × ℤ) :=
  if e.isMoving then
    some (translateInDirection (e.x, e.y) e.direction (e.effectiveSpeed * t))
  else
    none

def WEntity.setPosition (e : WEntity) (p : ℤ × ℤ) : WEntity :=
  { e with x := p.1, y := p.2 }

/-- Source `GameState._entities_collide`, which delegates to pygame's
`Rect.colliderect` (external library): axis-aligned overlap with strict
inequalities — rectangles that only touch along an edge do not collide. -/
def entitiesCollide (a b : WEntity) : Bool :=
  decide (a.x < b.x + b.w) && decide (a.x + a.w > b.x) &&
    decide (a.y < b.y + b.h) && decide (a.y + a.h > b.y)

/-- A pygame-style rectangle with nonnegative extent, as used for the world
area, the camera and bucket queries. -/
structure PRect where
  x : ℤ
  y : ℤ
  w : ℕ
  h : ℕ
deriving DecidableEq

/-! ### Buckets (game_state.py lines 920-968)

The `Dict[int, Dict[int, List]]` with keys `range(w // 100 + 1)` /
`range(h // 100 + 1)` becomes a nested list of exactly those lengths; a
missing dict key (Python `KeyError`) becomes `none`. -/

structure Buckets where
  store : List (List (List WEntity))
  entireWorldArea : PRect
deriving DecidableEq

/-- The grid that `Buckets.__init__` builds before inserting the entities:
`w // 100 + 1` columns of `h // 100 + 1` empty cells. -/
def emptyBuckets (area : PRect) : Buckets :=
  ⟨List.replicate (area.w / 100 + 1) (List.replicate (area.h / 100 + 1) []), area⟩

/-- Source `_bucket_index_for_world_position`: Python floor division by the
100×100 cell size. -/
def bucketIndexForWorldPosition (B : Buckets) (pos : ℤ × ℤ) : ℤ × ℤ :=
  ((pos.1 - B.entireWorldArea.x).fdiv 100, (pos.2 - B.entireWorldArea.y).fdiv 100)

/-- Source `add_entity`: append to the bucket of the entity's position; an index
outside the initialised grid is a `KeyError` (`none`). -/
def addEntity (B : Buckets) (e : WEntity) : Option Buckets :=
  let i := bucketIndexForWorldPosition B (e.x, e.y)
  if i.1 < 0 ∨ i.2 < 0 then
    none
  else
    match B.store.get? i.1.toNat with
    | none => none
    | some col =>
      match col.get? i.2.toNat with
      | none => none
      | some bucket =>
        some ⟨B.store.set i.1.toNat (col.set i.2.toNat (bucket ++ [e])),
          B.entireWorldArea⟩

/-- Source `Buckets.__init__(entities, entire_world_area)`. -/
def initBuckets (entities : List WEntity) (area : PRect) : Option Buckets :=
  entities.foldlM addEntity (emptyBuckets area)

/-- Python `range(a, b)`: the integers from `a` (inclusive) to `b`
(exclusive), empty when `b ≤ a`. -/
def intRange (a b : ℤ) : List ℤ :=
  (List.range (b - a).toNat).map fun k => a + k

/-- Source `_buckets_between_indices(x0, x1, y0, y1)`: the source iterates
`range(max(0, x0), min(x1 + 1, len(self._buckets) - 1))` (and the same for
y), so the EXCLUSIVE upper end of the range is `len - 1`: index `len - 1`,
the last row/column of buckets, is never yielded. -/
def bucketsBetweenIndices (B : Buckets) (x0 x1 y0 y1 : ℤ) :
    List (List WEntity) :=
  ((intRange (max 0 x0) (min (x1 + 1) ((B.store.length : ℤ) - 1))).map fun x =>
    let col := B.store.getD x.toNat []
    (intRange (max 0 y0) (min (y1 + 1) ((col.length : ℤ) - 1))).map fun y =>
      col.getD y.toNat []).flatten

/-- Source `get_entitites_close_to_world_area(world_area)` (source spelling): cell
range from the rectangle's topleft to its bottomright, expanded by one cell
in each direction. -/
def getEntititesCloseToWorldArea (B : Buckets) (worldArea : PRect) :
    List WEntity :=
  let p0 := bucketIndexForWorldPosition B (worldArea.x, worldArea.y)
  let p1 := bucketIndexForWorldPosition B
    (worldArea.x + worldArea.w, worldArea.y + worldArea.h)
  (bucketsBetweenIndices B (p0.1 - 1) (p1.1 + 1) (p0.2 - 1) (p1.2 + 1)).flatten

/-- Source `get_entities_close_to_position(position)`: the 3×3 cell neighbourhood. -/
def getEntitiesCloseToPosition (B : Buckets) (pos : ℤ × ℤ) : List WEntity :=
  let p := bucketIndexForWorldPosition B pos
  (bucketsBetweenIndices B (p.1 - 1) (p.1 + 1) (p.2 - 1) (p.2 + 1)).flatten

/-- World area 250×250: a 3×3 bucket grid (cells 0..2 per axis). -/
def c6Area : PRect := ⟨0, 0, 250, 250⟩

/-- A wall at (220, 220), which `add_entity` stores in cell (2, 2) — the
last row and column of the grid. -/
def c6Wall : WEntity := ⟨7, 220, 220, 30, 30, Dir.down, 0, false⟩

/-- A query rectangle (200, 200, 40, 40) lying over the wall's cell. -/
def c6Query : PRect := ⟨200, 200, 40, 40⟩

/-- C6 (code bug): the wall is stored in cell (2, 2); the query rectangle's
own (unexpanded) cell cover is exactly cell (2, 2), so the claimed contract
returns the wall; but `_buckets_between_indices` passes `min(x1 + 1, len - 1)`
as the EXCLUSIVE end of `range`, so the last bucket row/column is never
yielded and the query returns nothing. -/
theorem buckets_last_cell_never_returned :
    ∃ B, initBuckets [c6Wall] c6Area = some B ∧
      bucketIndexForWorldPosition B (c6Wall.x, c6Wall.y) = (2, 2) ∧
      bucketIndexForWorldPosition B (c6Query.x, c6Query.y) = (2, 2) ∧
      bucketIndexForWorldPosition B
        (c6Query.x + c6Query.w, c6Query.y + c6Query.h) = (2, 2) ∧
      B.store.length = 3 ∧
      getEntititesCloseToWorldArea B c6Query = [] := by
  refine ⟨⟨[[[], [], []], [[], [], []], [[], [], [c6Wall]]], c6Area⟩,
    by decide, by decide, by decide, by decide, by decide, by decide⟩

/-! ### Movement resolver (game_state.py lines 675-864) -/

structure GameState where
  playerEntity : WEntity
  nonPlayerCharacters : List WEntity
  wallsBuckets : Buckets
  portals : List WEntity
  warpPoints : List WEntity
  chests : List WEntity
  entireWorldArea : PRect
deriving DecidableEq

/-- Source `get_within_world(pos, size)`: clamp a candidate position so the whole
entity fits inside the world area. -/
def GameState.getWithinWorld (gs : GameState) (pos : ℤ × ℤ) (size : ℤ × ℤ) :
    ℤ × ℤ :=
  (max gs.entireWorldArea.x
    (min (gs.entireWorldArea.x + gs.entireWorldArea.w - size.1) pos.1),
   max gs.entireWorldArea.y
    (min (gs.entireWorldArea.y + gs.entireWorldArea.h - size.2) pos.2))

/-- Source `is_position_within_game_world(position)`, i.e. pygame
`Rect.collidepoint`: inside including the top/left edges, excluding
right/bottom. -/
def GameState.isPositionWithinGameWorld (gs : GameState) (pos : ℤ × ℤ) : Bool :=
  decide (gs.entireWorldArea.x ≤ pos.1) &&
    decide (pos.1 < gs.entireWorldArea.x + gs.entireWorldArea.w) &&
    decide (gs.entireWorldArea.y ≤ pos.2) &&
    decide (pos.2 < gs.entireWorldArea.y + gs.entireWorldArea.h)

/-- The `other_entities` list of `would_entity_collide_if_new_pos`, in source
order: NPCs, the player, the walls near the (tentatively moved) position,
portals, warp points, chests. -/
def GameState.otherEntities (gs : GameState) (movedPos : ℤ × ℤ) :
    List WEntity :=
  gs.nonPlayerCharacters ++ [gs.playerEntity] ++
    getEntitiesCloseToPosition gs.wallsBuckets movedPos ++
    gs.portals ++ gs.warpPoints ++ gs.chests

/-- Source `would_entity_collide_if_new_pos(entity, new_pos_within_world)`: raises
(`none`) when the position is outside the world; otherwise tentatively moves
the entity, queries the wall buckets at the moved position, and reports
whether any other entity (identity-excluded) overlaps. -/
def GameState.wouldEntityCollideIfNewPos (gs : GameState) (e : WEntity)
    (newPos : ℤ × ℤ) : Option Bool :=
  if gs.isPositionWithinGameWorld newPos = false then
    none
  else
    let moved := e.setPosition newPos
    some ((gs.otherEntities (moved.x, moved.y)).any fun other =>
      entitiesCollide moved other && decide (other.eid ≠ e.eid))

/-- Source `update_world_entity_position_within_game_world(entity, time_passed)`:
tentative move, test, revert-or-commit. -/
def GameState.updateWorldEntityPositionWithinGameWorld (gs : GameState)
    (e : WEntity) (t : ℤ) : Option WEntity :=
  match e.getNewPositionAccordingToDirAndSpeed t with
  | none => some e
  | some p =>
    let q := gs.getWithinWorld p (e.w, e.h)
    match gs.wouldEntityCollideIfNewPos e q with
    | none => none
    | some true => some e
    | some false => some (e.setPosition q)

/-- C8 (confirmed): a moving entity whose in-bounds clamped candidate
position overlaps some other entity (NPC, player, nearby wall, portal, warp
point or chest — any member of the resolver's `other_entities` list) keeps
exactly its previous position: the update returns the entity unchanged. -/
theorem collision_rejects_move (gs : GameState) (e : WEntity) (t : ℤ)
    (p : ℤ × ℤ) (hp : e.getNewPositionAccordingToDirAndSpeed t = some p)
    (hin : gs.isPositionWithinGameWorld (gs.getWithinWorld p (e.w, e.h)) = true)
    (hcol : ∃ other ∈ gs.otherEntities (gs.getWithinWorld p (e.w, e.h)),
        entitiesCollide (e.setPosition (gs.getWithinWorld p (e.w, e.h))) other = true ∧
        other.eid ≠ e.eid) :
    gs.updateWorldEntityPositionWithinGameWorld e t = some e := by
  have hw : gs.wouldEntityCollideIfNewPos e (gs.getWithinWorld p (e.w, e.h)) =
      some true := by
    rw [GameState.wouldEntityCollideIfNewPos, if_neg (by rw [hin]; simp)]
    dsimp only [WEntity.setPosition]
    congr 1
    obtain ⟨other, hmem, hc, hne⟩ := hcol
    exact List.any_eq_true.mpr
      ⟨other, hmem, by rw [Bool.and_eq_true]; exact ⟨hc, by simpa using hne⟩⟩
  simp only [GameState.updateWorldEntityPositionWithinGameWorld, hp, hw]

/-- A world with a stationary player at (0,0) and a leftwards-moving NPC
whose candidate position overlaps the player. -/
def c8State : GameState :=
  ⟨⟨0, 0, 0, 30, 30, Dir.down, 0, false⟩, [⟨1, 35, 0, 30, 30, Dir.left, 1, true⟩],
    emptyBuckets ⟨0, 0, 500, 500⟩, [], [], [], ⟨0, 0, 500, 500⟩⟩

/-- The moving NPC's world entity. -/
def c8Mover : WEntity := ⟨1, 35, 0, 30, 30, Dir.left, 1, true⟩

/-- C8 witness: after 10 ms at speed 1 the mover's candidate (25, 0)
overlaps the player's rectangle, so its position stays (35, 0). -/
theorem collision_rejects_move_witness :
    c8State.updateWorldEntityPositionWithinGameWorld c8Mover 10 = some c8Mover :=
  collision_rejects_move c8State c8Mover 10 (25, 0) (by decide) (by decide)
    ⟨⟨0, 0, 0, 30, 30, Dir.down, 0, false⟩, by decide, by decide, by decide⟩

end PyGame
